import Mathlib

/-!
# Verification of the hazel release cache and update-decision logic

Shallow embedding of `src/lib/cache.js` and `src/lib/routes.js`
(belay-labs/hazel).  Pure JS functions become Lean functions; the mutable
`Cache` object becomes an explicit `CacheSt` value threaded through the
refresh/load operations; `fetch`+`async-retry` become an oracle
`Nat → Attempt` giving the outcome of each successive HTTP attempt;
thrown JS exceptions become explicit error values.

The `semver` npm package (used via `semver.gt`, `semver.compare`,
`semver.valid`) is embedded concretely below, following its default
(strict) grammar and comparison rules: optional leading `v`, a
`major.minor.patch` core of digit runs without leading zeros, an optional
dash-separated prerelease of dot-separated identifiers, an optional
`+build` part that is ignored by comparison; prerelease versions sort
below the corresponding release, numeric identifiers sort below
alphanumeric ones, and identifier lists compare lexicographically with
the shorter list first.
-/

set_option linter.unusedVariables false

namespace Hazel

/-! ## Ordering-valued comparators and their laws -/

theorem Ordering.then_eq_gt {o₁ o₂ : Ordering} :
    o₁.then o₂ = .gt ↔ o₁ = .gt ∨ (o₁ = .eq ∧ o₂ = .gt) := by
  cases o₁ <;> simp [Ordering.then]

theorem Ordering.then_eq_eq {o₁ o₂ : Ordering} :
    o₁.then o₂ = .eq ↔ o₁ = .eq ∧ o₂ = .eq := by
  cases o₁ <;> simp [Ordering.then]

theorem Ordering.swap_then (o₁ o₂ : Ordering) :
    (o₁.then o₂).swap = o₁.swap.then o₂.swap := by
  cases o₁ <;> simp [Ordering.then, Ordering.swap]

theorem Ordering.eq_then' (o : Ordering) : Ordering.eq.then o = o := rfl

theorem Ordering.then_eq' (o : Ordering) : o.then Ordering.eq = o := by
  cases o <;> rfl

theorem Ordering.lt_then' (o : Ordering) : Ordering.lt.then o = .lt := rfl

theorem Ordering.gt_then' (o : Ordering) : Ordering.gt.then o = .gt := rfl

/-- The comparator laws needed to reason about maxima: reflexivity,
antisymmetry (via `swap`) and the four transitivity shapes. -/
structure LawCmp {α : Type _} (c : α → α → Ordering) : Prop where
  self : ∀ a, c a a = .eq
  swap : ∀ a b, (c a b).swap = c b a
  eq_trans : ∀ {a b d}, c a b = .eq → c b d = .eq → c a d = .eq
  gt_trans : ∀ {a b d}, c a b = .gt → c b d = .gt → c a d = .gt
  gt_eq_trans : ∀ {a b d}, c a b = .gt → c b d = .eq → c a d = .gt
  eq_gt_trans : ∀ {a b d}, c a b = .eq → c b d = .gt → c a d = .gt

theorem LawCmp.gt_asymm {α : Type _} {c : α → α → Ordering} (h : LawCmp c)
    {a b : α} (hab : c a b = .gt) : c b a = .lt := by
  have := h.swap a b
  rw [hab] at this
  simpa [Ordering.swap] using this.symm

theorem natCompare_lawful : LawCmp (fun a b : Nat => compare a b) := by
  refine ⟨?_, ?_, ?_, ?_, ?_, ?_⟩
  · intro a; simp [Nat.compare_eq_eq]
  · intro a b; exact Nat.compare_swap a b
  all_goals
    intro a b d hab hbd
    simp only [Nat.compare_eq_eq, Nat.compare_eq_gt] at *
    omega

/-- Lexicographic composition of two comparators (the semantics of
`Ordering.then` applied pointwise). -/
def lexCmp {α : Type _} (c₁ c₂ : α → α → Ordering) (a b : α) : Ordering :=
  (c₁ a b).then (c₂ a b)

theorem lexCmp_lawful {α : Type _} {c₁ c₂ : α → α → Ordering}
    (h₁ : LawCmp c₁) (h₂ : LawCmp c₂) : LawCmp (lexCmp c₁ c₂) := by
  refine ⟨?_, ?_, ?_, ?_, ?_, ?_⟩
  · intro a; simp [lexCmp, h₁.self, h₂.self, Ordering.then]
  · intro a b
    simp [lexCmp, Ordering.swap_then, h₁.swap, h₂.swap]
  · intro a b d hab hbd
    simp only [lexCmp, Ordering.then_eq_eq] at *
    exact ⟨h₁.eq_trans hab.1 hbd.1, h₂.eq_trans hab.2 hbd.2⟩
  · intro a b d hab hbd
    simp only [lexCmp, Ordering.then_eq_gt] at *
    rcases hab with h | ⟨he, hg⟩ <;> rcases hbd with h' | ⟨he', hg'⟩
    · exact Or.inl (h₁.gt_trans h h')
    · exact Or.inl (h₁.gt_eq_trans h he')
    · exact Or.inl (h₁.eq_gt_trans he h')
    · exact Or.inr ⟨h₁.eq_trans he he', h₂.gt_trans hg hg'⟩
  · intro a b d hab hbd
    simp only [lexCmp, Ordering.then_eq_gt, Ordering.then_eq_eq] at *
    rcases hab with h | ⟨he, hg⟩
    · exact Or.inl (h₁.gt_eq_trans h hbd.1)
    · exact Or.inr ⟨h₁.eq_trans he hbd.1, h₂.gt_eq_trans hg hbd.2⟩
  · intro a b d hab hbd
    simp only [lexCmp, Ordering.then_eq_gt, Ordering.then_eq_eq] at *
    rcases hbd with h | ⟨he, hg⟩
    · exact Or.inl (h₁.eq_gt_trans hab.1 h)
    · exact Or.inr ⟨h₁.eq_trans hab.1 he, h₂.eq_gt_trans hab.2 hg⟩

/-- Lexicographic comparison of lists, the shorter list first on
exhaustion (the rule for identifiers *inside* a prerelease list). -/
def cmpList {α : Type _} (c : α → α → Ordering) : List α → List α → Ordering
  | [], [] => .eq
  | [], _ :: _ => .lt
  | _ :: _, [] => .gt
  | a :: as, b :: bs => (c a b).then (cmpList c as bs)

theorem cmpList_lawful {α : Type _} {c : α → α → Ordering} (hc : LawCmp c) :
    LawCmp (cmpList c) := by
  have self : ∀ l, cmpList c l l = .eq := by
    intro l
    induction l with
    | nil => rfl
    | cons a as ih => simp [cmpList, hc.self, Ordering.then, ih]
  have swap : ∀ l₁ l₂, (cmpList c l₁ l₂).swap = cmpList c l₂ l₁ := by
    intro l₁
    induction l₁ with
    | nil => intro l₂; cases l₂ <;> rfl
    | cons a as ih =>
      intro l₂
      cases l₂ with
      | nil => rfl
      | cons b bs => simp [cmpList, Ordering.swap_then, hc.swap, ih]
  have key : ∀ l₁ l₂ l₃,
      (cmpList c l₁ l₂ = .eq → cmpList c l₂ l₃ = .eq → cmpList c l₁ l₃ = .eq) ∧
      (cmpList c l₁ l₂ = .gt → cmpList c l₂ l₃ = .gt → cmpList c l₁ l₃ = .gt) ∧
      (cmpList c l₁ l₂ = .gt → cmpList c l₂ l₃ = .eq → cmpList c l₁ l₃ = .gt) ∧
      (cmpList c l₁ l₂ = .eq → cmpList c l₂ l₃ = .gt → cmpList c l₁ l₃ = .gt) := by
    intro l₁
    induction l₁ with
    | nil =>
      intro l₂ l₃
      cases l₂ <;> cases l₃ <;> simp [cmpList]
    | cons a as ih =>
      intro l₂ l₃
      cases l₂ with
      | nil =>
        cases l₃ <;> simp [cmpList]
      | cons b bs =>
        cases l₃ with
        | nil => simp [cmpList]
        | cons d ds =>
          obtain ⟨ihe, ihg, ihge, iheg⟩ := ih bs ds
          constructor
          · intro h h'
            simp only [cmpList, Ordering.then_eq_eq] at *
            exact ⟨hc.eq_trans h.1 h'.1, ihe h.2 h'.2⟩
          refine ⟨?_, ?_, ?_⟩ <;> intro h h' <;>
            simp only [cmpList, Ordering.then_eq_gt, Ordering.then_eq_eq] at *
          · rcases h with h | ⟨he, hg⟩ <;> rcases h' with h' | ⟨he', hg'⟩
            · exact Or.inl (hc.gt_trans h h')
            · exact Or.inl (hc.gt_eq_trans h he')
            · exact Or.inl (hc.eq_gt_trans he h')
            · exact Or.inr ⟨hc.eq_trans he he', ihg hg hg'⟩
          · rcases h with h | ⟨he, hg⟩
            · exact Or.inl (hc.gt_eq_trans h h'.1)
            · exact Or.inr ⟨hc.eq_trans he h'.1, ihge hg h'.2⟩
          · rcases h' with h' | ⟨he', hg'⟩
            · exact Or.inl (hc.eq_gt_trans h.1 h')
            · exact Or.inr ⟨hc.eq_trans h.1 he', iheg h.2 hg'⟩
  exact ⟨self, swap,
    fun {a b d} h h' => (key a b d).1 h h',
    fun {a b d} h h' => (key a b d).2.1 h h',
    fun {a b d} h h' => (key a b d).2.2.1 h h',
    fun {a b d} h h' => (key a b d).2.2.2 h h'⟩

/-! ## The semver package: values and comparison

`semver.compare` ignores build metadata; a release (empty prerelease
list) is greater than any prerelease of the same core; numeric
prerelease identifiers compare numerically and sort below alphanumeric
identifiers, which compare as ASCII strings. -/

/-- One dot-separated prerelease identifier: numeric or alphanumeric. -/
inductive PreId where
  | num (n : Nat)
  | str (s : String)
  deriving DecidableEq, Repr

/-- A parsed semantic version. `build` never participates in comparison. -/
structure SemVer where
  major : Nat
  minor : Nat
  patch : Nat
  pre : List PreId
  build : List String
  deriving DecidableEq, Repr

/-- Character comparison by code point (JS string `<`/`>` on the ASCII
identifiers semver admits). -/
def cmpChar (a b : Char) : Ordering := compare a.toNat b.toNat

/-- JS string comparison: lexicographic by code unit. -/
def cmpStr (a b : String) : Ordering := cmpList cmpChar a.data b.data

/-- `compareIdentifiers` of the semver package: numeric identifiers are
lower than alphanumeric ones; numbers numerically, strings as strings. -/
def cmpPreId : PreId → PreId → Ordering
  | .num a, .num b => compare a b
  | .num _, .str _ => .lt
  | .str _, .num _ => .gt
  | .str a, .str b => cmpStr a b

/-- Prerelease-list comparison: no prerelease beats any prerelease;
otherwise identifier-wise with the shorter list first. -/
def cmpPre : List PreId → List PreId → Ordering
  | [], [] => .eq
  | [], _ :: _ => .gt
  | _ :: _, [] => .lt
  | a :: as, b :: bs => (cmpPreId a b).then (cmpList cmpPreId as bs)

/-- `semver.compare` on parsed versions. -/
def scmp (a b : SemVer) : Ordering :=
  (compare a.major b.major).then
    ((compare a.minor b.minor).then
      ((compare a.patch b.patch).then (cmpPre a.pre b.pre)))

/-- Comparator laws transport along any function into the compared type. -/
theorem LawCmp.comap {α β : Type _} {c : β → β → Ordering} (h : LawCmp c)
    (f : α → β) : LawCmp (fun a b => c (f a) (f b)) :=
  ⟨fun a => h.self _, fun a b => h.swap _ _,
   fun h1 h2 => h.eq_trans h1 h2, fun h1 h2 => h.gt_trans h1 h2,
   fun h1 h2 => h.gt_eq_trans h1 h2, fun h1 h2 => h.eq_gt_trans h1 h2⟩

theorem cmpChar_lawful : LawCmp cmpChar :=
  natCompare_lawful.comap Char.toNat

theorem cmpStr_lawful : LawCmp cmpStr :=
  (cmpList_lawful cmpChar_lawful).comap String.data

/-- `PreId` embeds into a lexicographic pair: numeric identifiers sort
below alphanumeric ones. -/
def preIdKey : PreId → Nat × Nat × List Char
  | .num n => (0, n, [])
  | .str s => (1, 0, s.data)

theorem cmpPreId_eq (a b : PreId) :
    cmpPreId a b =
      lexCmp (fun x y : Nat × Nat × List Char => compare x.1 y.1)
        (lexCmp (fun x y => compare x.2.1 y.2.1)
          (fun x y => cmpList cmpChar x.2.2 y.2.2)) (preIdKey a) (preIdKey b) := by
  cases a <;> cases b <;>
    simp [cmpPreId, preIdKey, lexCmp, cmpStr, cmpList,
      show compare 0 0 = Ordering.eq from rfl,
      show compare 0 1 = Ordering.lt from rfl,
      show compare 1 0 = Ordering.gt from rfl,
      show compare 1 1 = Ordering.eq from rfl,
      Ordering.eq_then', Ordering.then_eq', Ordering.lt_then', Ordering.gt_then']

theorem cmpPreId_lawful : LawCmp cmpPreId := by
  have heq : cmpPreId = fun a b =>
      lexCmp (fun x y : Nat × Nat × List Char => compare x.1 y.1)
        (lexCmp (fun x y => compare x.2.1 y.2.1)
          (fun x y => cmpList cmpChar x.2.2 y.2.2)) (preIdKey a) (preIdKey b) := by
    funext a b; exact cmpPreId_eq a b
  rw [heq]
  exact (lexCmp_lawful (natCompare_lawful.comap Prod.fst)
    (lexCmp_lawful (natCompare_lawful.comap fun x => x.2.1)
      ((cmpList_lawful cmpChar_lawful).comap fun x => x.2.2))).comap preIdKey

/-- Prerelease lists embed into a lexicographic pair whose first
component puts the empty list (a full release) on top. -/
def preKey (l : List PreId) : Nat × List PreId :=
  match l with
  | [] => (1, [])
  | _ => (0, l)

theorem cmpPre_eq (l₁ l₂ : List PreId) :
    cmpPre l₁ l₂ =
      lexCmp (fun a b : Nat × List PreId => compare a.1 b.1)
        (fun a b => cmpList cmpPreId a.2 b.2) (preKey l₁) (preKey l₂) := by
  cases l₁ <;> cases l₂ <;> rfl

theorem cmpPre_lawful : LawCmp cmpPre := by
  have heq : cmpPre = fun l₁ l₂ =>
      lexCmp (fun a b : Nat × List PreId => compare a.1 b.1)
        (fun a b => cmpList cmpPreId a.2 b.2) (preKey l₁) (preKey l₂) := by
    funext l₁ l₂; exact cmpPre_eq l₁ l₂
  rw [heq]
  exact (lexCmp_lawful (natCompare_lawful.comap Prod.fst)
    ((cmpList_lawful cmpPreId_lawful).comap Prod.snd)).comap preKey

theorem scmp_lawful : LawCmp scmp := by
  have heq : scmp = lexCmp (fun a b : SemVer => compare a.major b.major)
      (lexCmp (fun a b => compare a.minor b.minor)
        (lexCmp (fun a b => compare a.patch b.patch)
          (fun a b => cmpPre a.pre b.pre))) := by
    funext a b; rfl
  rw [heq]
  exact lexCmp_lawful (natCompare_lawful.comap SemVer.major)
    (lexCmp_lawful (natCompare_lawful.comap SemVer.minor)
      (lexCmp_lawful (natCompare_lawful.comap SemVer.patch)
        (cmpPre_lawful.comap SemVer.pre)))

/-! ## The semver package: parsing (`semver.valid`, strict grammar)

Grammar of the package's default (non-loose) regular expression:
optional leading `v`; `major.minor.patch` where each part is a digit run
without leading zeros; optionally `-` followed by dot-separated
prerelease identifiers (numeric without leading zeros, or alphanumeric
over `[0-9A-Za-z-]` containing a non-digit); optionally `+` followed by
dot-separated non-empty build identifiers over `[0-9A-Za-z-]`.  The
input is trimmed first.  Prerelease hyphens: the prerelease part runs
from the first `-` after the core, so later hyphens belong to
identifiers. -/

/-- Split a character list at every occurrence of `sep` (the semantics
of JS `String.split` with a single-character separator, on the
character level). -/
def splitCharAux (sep : Char) (acc : List Char) : List Char → List (List Char)
  | [] => [acc.reverse]
  | c :: cs =>
    if c = sep then acc.reverse :: splitCharAux sep [] cs
    else splitCharAux sep (c :: acc) cs

def splitChar (sep : Char) (l : List Char) : List (List Char) :=
  splitCharAux sep [] l

/-- Re-join the parts that followed the first separator (JS keeps the
later hyphens inside the prerelease text). -/
def joinSep (sep : Char) : List (List Char) → List Char
  | [] => []
  | [x] => x
  | x :: xs => x ++ sep :: joinSep sep xs

/-- JS `String.trim`. -/
def trimChars (l : List Char) : List Char :=
  ((l.dropWhile Char.isWhitespace).reverse.dropWhile Char.isWhitespace).reverse

def isIdentChar (c : Char) : Bool := c.isAlphanum || c = '-'

def isDigitsL (l : List Char) : Bool := !l.isEmpty && l.all Char.isDigit

def noLeadingZeroL : List Char → Bool
  | '0' :: rest => rest.isEmpty
  | _ => true

/-- Numeric value of a digit run. -/
def digitsVal (l : List Char) : Nat :=
  l.foldl (fun n c => n * 10 + (c.toNat - 48)) 0

/-- `major`/`minor`/`patch`: digit run, no leading zeros. -/
def parseNumStrict (l : List Char) : Option Nat :=
  if isDigitsL l && noLeadingZeroL l then some (digitsVal l) else none

/-- One prerelease identifier. -/
def parsePreId (l : List Char) : Option PreId :=
  if isDigitsL l then
    if noLeadingZeroL l then some (.num (digitsVal l)) else none
  else if !l.isEmpty && l.all isIdentChar then some (.str ⟨l⟩)
  else none

/-- One build identifier. -/
def parseBuildId (l : List Char) : Option String :=
  if !l.isEmpty && l.all isIdentChar then some ⟨l⟩ else none

/-- The `major.minor.patch` core. -/
def parseCore (l : List Char) : Option (Nat × Nat × Nat) :=
  match splitChar '.' l with
  | [a, b, c] => do
    let x ← parseNumStrict a
    let y ← parseNumStrict b
    let z ← parseNumStrict c
    pure (x, y, z)
  | _ => none

def parsePre (l : List Char) : Option (List PreId) :=
  (splitChar '.' l).mapM parsePreId

def parseBuild (l : List Char) : Option (List String) :=
  (splitChar '.' l).mapM parseBuildId

/-- Core plus optional prerelease (everything after the first `-`). -/
def parseMainPre (l : List Char) (build : List String) : Option SemVer :=
  match splitChar '-' l with
  | [] => none
  | [core] => do
    let (ma, mi, pa) ← parseCore core
    pure ⟨ma, mi, pa, [], build⟩
  | core :: rest => do
    let (ma, mi, pa) ← parseCore core
    let pre ← parsePre (joinSep '-' rest)
    pure ⟨ma, mi, pa, pre, build⟩

/-- `semver.parse` (strict): trim, strip one optional `v`, split off the
build part at `+`, then core and prerelease. -/
def parseSemver (input : String) : Option SemVer :=
  let t := trimChars input.data
  let t := match t with
    | 'v' :: rest => rest
    | other => other
  match splitChar '+' t with
  | [mainPre] => parseMainPre mainPre []
  | [mainPre, b] => do
    let bs ← parseBuild b
    parseMainPre mainPre bs
  | _ => none

/-- `semver.valid(s) !== null`. -/
def validSemver (s : String) : Bool := (parseSemver s).isSome

/-- `semver.compare(a, b)`: `none` models the thrown `Invalid Version`
`TypeError` when either argument does not parse. -/
def semverCompare (a b : String) : Option Ordering := do
  let pa ← parseSemver a
  let pb ← parseSemver b
  pure (scmp pa pb)

/-- `semver.gt(a, b)` (also throwing on invalid input). -/
def semverGt (a b : String) : Option Bool :=
  (semverCompare a b).map (· == .gt)

theorem semverCompare_total {a b : String} (ha : validSemver a = true)
    (hb : validSemver b = true) : ∃ o, semverCompare a b = some o := by
  simp only [validSemver, Option.isSome_iff_exists] at ha hb
  obtain ⟨pa, hpa⟩ := ha
  obtain ⟨pb, hpb⟩ := hb
  exact ⟨scmp pa pb, by simp [semverCompare, hpa, hpb]⟩

theorem semverCompare_self {a : String} (ha : validSemver a = true) :
    semverCompare a a = some .eq := by
  simp only [validSemver, Option.isSome_iff_exists] at ha
  obtain ⟨pa, hpa⟩ := ha
  simp [semverCompare, hpa, scmp_lawful.self]

theorem semverCompare_gt_trans {a b c : String}
    (hab : semverCompare a b = some .gt) (hbc : semverCompare b c = some .gt) :
    semverCompare a c = some .gt := by
  cases hpa : parseSemver a <;> cases hpb : parseSemver b <;>
    cases hpc : parseSemver c <;>
    simp_all [semverCompare]
  exact scmp_lawful.gt_trans hab hbc

theorem semverCompare_not_gt_self {a : String} :
    semverCompare a a ≠ some .gt := by
  cases hpa : parseSemver a <;>
    simp [semverCompare, hpa, scmp_lawful.self]

/-- Sanity checks of the semver embedding on concrete versions. -/
example : validSemver "1.2.0" = true := by decide
example : validSemver "v1.2.0" = true := by decide
example : validSemver "1.1.0-beta" = true := by decide
example : validSemver "vv1.0.0" = false := by decide
example : validSemver "1.01.0" = false := by decide
example : validSemver "not-a-version" = false := by decide
example : semverCompare "v1.2.0" "1.2.0" = some .eq := by decide
example : semverCompare "1.2.0" "1.1.0-beta" = some .gt := by decide
example : semverCompare "1.1.0-beta" "1.1.0" = some .lt := by decide
example : semverCompare "1.2.0+a" "1.2.0+b" = some .eq := by decide
example : semverCompare "1.0.0-alpha" "1.0.0-alpha.1" = some .lt := by decide
example : semverCompare "1.0.0-2" "1.0.0-alpha" = some .lt := by decide

/-! ## JS objects as association lists

JS plain objects keyed by strings become association lists with unique
keys; property write is replace-in-place-or-append (`upsert`), property
read is `lookup`, and `Object.fromEntries` is a left fold of writes. -/

def lookup {α : Type _} (m : List (String × α)) (k : String) : Option α :=
  (m.find? fun p => p.1 = k).map (·.2)

def upsert {α : Type _} : List (String × α) → String → α → List (String × α)
  | [], k, v => [(k, v)]
  | (k', v') :: rest, k, v =>
    if k' = k then (k, v) :: rest else (k', v') :: upsert rest k v

def fromEntries {α : Type _} (l : List (String × α)) : List (String × α) :=
  l.foldl (fun m kv => upsert m kv.1 kv.2) []

def NodupKeys {α : Type _} (m : List (String × α)) : Prop :=
  (m.map Prod.fst).Nodup

/-! ## Raw upstream data (`GET /repos/:repo/releases` payload) -/

/-- One element of a release's `assets` array, with the fields
`refreshCache` destructures. `size` is in bytes. -/
structure RawAsset where
  name : String
  browser_download_url : String
  url : String
  content_type : String
  size : Nat
  deriving DecidableEq, Repr

/-- One raw release object. `tag_name` and `assets` may be absent
(`undefined`); an absent or empty `tag_name` and an absent `assets`
list are both rejected by the `!tagName || !release.assets` guard
(an *empty* assets array is truthy and passes). -/
structure RawRelease where
  tag_name : Option String
  draft : Bool
  assets : Option (List RawAsset)
  body : String
  published_at : String
  deriving DecidableEq, Repr

/-- One indexed asset. `size_tenthMB` models
`Math.round((size / 1000000) * 10) / 10` exactly, scaled by 10 to stay
in integers: the stored JS number is `size_tenthMB / 10` megabytes. -/
structure Asset where
  name : String
  api_url : String
  url : String
  content_type : String
  size_tenthMB : Nat
  deriving DecidableEq, Repr

/-- One indexed release (the value stored per environment). -/
structure Release where
  version : String
  notes : String
  pub_date : String
  platforms : List (String × Asset)
  deriving DecidableEq, Repr

/-- `tagName.split("-")[1] || "production"` — also used on client
versions in `routes.js`. An empty segment is falsy, hence
"production". -/
def envOf (tag : String) : String :=
  match (splitChar '-' tag.data).get? 1 with
  | none => "production"
  | some [] => "production"
  | some seg => ⟨seg⟩

/-- The `!tagName || !release.assets` guard of the `forEach` body. -/
def passesGuard (r : RawRelease) : Bool :=
  (match r.tag_name with
   | some t => !t.isEmpty
   | none => false) && r.assets.isSome

def tagOf (r : RawRelease) : String := r.tag_name.getD ""

/-- Phase 1 of `refreshCache`'s indexing: one `forEach` step over the
draft-filtered list, keeping per environment the release that survives
`semver.gt`.  A `none` result models the `TypeError` thrown by
`semver.gt` when either tag is invalid, which aborts the refresh. -/
def bucketStep (m : List (String × RawRelease)) (r : RawRelease) :
    Option (List (String × RawRelease)) :=
  if passesGuard r then
    match lookup m (envOf (tagOf r)) with
    | some cur =>
      match semverGt (tagOf r) (tagOf cur) with
      | none => none
      | some true => some (upsert m (envOf (tagOf r)) r)
      | some false => some m
    | none => some (upsert m (envOf (tagOf r)) r)
  else some m

def bucketize (data : List RawRelease) :
    Option (List (String × RawRelease)) :=
  (data.filter fun r => !r.draft).foldlM bucketStep []

/-- `Math.round((size / 1000000) * 10)`: exact half-up rounding of
`size / 100000`. -/
def roundTenthMB (size : Nat) : Nat := (size + 50000) / 100000

def mkAsset (a : RawAsset) : Asset :=
  { name := a.name
    api_url := a.url
    url := a.browser_download_url
    content_type := a.content_type
    size_tenthMB := roundTenthMB a.size }

/-- Phase 2, inner part: map each asset through `checkPlatform`, drop
unresolved ones, and build the platform table with `Object.fromEntries`
(later duplicate keys overwrite earlier ones). -/
def buildPlatforms (checkPlatform : String → Option String)
    (assets : List RawAsset) : List (String × Asset) :=
  fromEntries (assets.filterMap fun a =>
    (checkPlatform a.name).map fun p => (p, mkAsset a))

/-- Phase 2, outer part: build the `Release` for one environment, or
drop the environment when no asset resolved. -/
def indexEntry (checkPlatform : String → Option String) (r : RawRelease) :
    Option Release :=
  let platforms := buildPlatforms checkPlatform (r.assets.getD [])
  if platforms.isEmpty then none
  else some
    { version := tagOf r
      notes := r.body
      pub_date := r.published_at
      platforms := platforms }

/-- The full indexing transformation of `refreshCache` (lines 106–165):
draft filter, per-environment semver maximum, platform tables, empty
environments dropped. `none` models the thrown `Invalid Version`. -/
def indexReleases (checkPlatform : String → Option String)
    (data : List RawRelease) : Option (List (String × Release)) := do
  let buckets ← bucketize data
  pure (buckets.filterMap fun er =>
    (indexEntry checkPlatform er.2).map fun rel => (er.1, rel))

/-! ## The cache (`src/lib/cache.js`)

The mutable fields `latestReleaseByEnvironment` and `lastUpdate` become
`CacheSt`; `fetch` becomes an oracle `att : Nat → Attempt` giving each
successive attempt's outcome, and `async-retry` with `{ retries: 3 }`
walks it (one initial try plus up to three retries, surfacing the last
error).  In the JS, every `throw` inside `refreshCache` happens before
either field is assigned, so an erroring refresh returns the state
unchanged. -/

/-- Result of `response.json()` on a 200 response: rejected promise
(invalid JSON), a non-array value, or an array of release objects. -/
inductive Body where
  | invalid
  | nonArray
  | arr (data : List RawRelease)
  deriving DecidableEq, Repr

/-- Outcome of one `fetch` call: transport failure (rejected promise)
or a response with a status and a body. -/
inductive Attempt where
  | transport (msg : String)
  | resp (status : Nat) (body : Body)
  deriving DecidableEq, Repr

/-- The error the retry loop surfaces: the transport error, or the
`GitHub API responded with <status>` error carrying the status code. -/
inductive FetchErr where
  | transport (msg : String)
  | badStatus (status : Nat)
  deriving DecidableEq, Repr

/-- Everything `refreshCache` can reject with. -/
inductive RefreshError where
  | fetchFailed (e : FetchErr)
  | jsonParse
  | invalidVersion
  deriving DecidableEq, Repr

def Attempt.fails : Attempt → Bool
  | .transport _ => true
  | .resp s _ => s != 200

def Attempt.err : Attempt → FetchErr
  | .transport m => .transport m
  | .resp s _ => .badStatus s

/-- `retry(async () => ..., { retries: 3 })`: try attempt `i`; a non-200
status (the thrown `GitHub API responded with ...` error) or a transport
failure is retried while `fuel` remains, and the last attempt's error is
the one surfaced. -/
def runRetry (att : Nat → Attempt) : Nat → Nat → Except FetchErr Body
  | i, fuel =>
    match att i with
    | .resp s b =>
      if s = 200 then .ok b
      else
        match fuel with
        | 0 => .error (.badStatus s)
        | fuel' + 1 => runRetry att (i + 1) fuel'
    | .transport m =>
      match fuel with
      | 0 => .error (.transport m)
      | fuel' + 1 => runRetry att (i + 1) fuel'

/-- Number of `fetch` calls the retry loop issues. -/
def fetchCalls (att : Nat → Attempt) : Nat → Nat → Nat
  | i, fuel =>
    if (att i).fails then
      match fuel with
      | 0 => 1
      | fuel' + 1 => 1 + fetchCalls att (i + 1) fuel'
    else 1

/-- `this.latestReleaseByEnvironment` and `this.lastUpdate` (the unused
legacy field `latest` stays `{}` forever and is omitted). -/
structure CacheSt where
  latestReleaseByEnvironment : List (String × Release)
  lastUpdate : Option Nat
  deriving DecidableEq, Repr

def initialCache : CacheSt := ⟨[], none⟩

/-- The body of `refreshCache` after the retried fetch resolved:
`response.json()`, early return on non-array or empty data, indexing,
then — only on the all-success path — install the new index and
`lastUpdate = Date.now()`. -/
def refreshApply (checkPlatform : String → Option String) (now : Nat)
    (st : CacheSt) : Except FetchErr Body → CacheSt × Option RefreshError
  | .error e => (st, some (.fetchFailed e))
  | .ok .invalid => (st, some .jsonParse)
  | .ok .nonArray => (st, none)
  | .ok (.arr data) =>
    if data.isEmpty then (st, none)
    else
      match indexReleases checkPlatform data with
      | none => (st, some .invalidVersion)
      | some idx => ({ latestReleaseByEnvironment := idx, lastUpdate := some now }, none)

/-- `refreshCache` (lines 77–168).  The returned state is the object's
state after the call; `some e` means the returned promise rejected
with `e`. -/
def refreshCache (checkPlatform : String → Option String)
    (att : Nat → Attempt) (now : Nat) (st : CacheSt) :
    CacheSt × Option RefreshError :=
  refreshApply checkPlatform now st (runRetry att 0 3)

/-- `INTERVAL` configuration; `const { interval = 15 } = config`. -/
structure Config where
  interval : Option Nat
  deriving DecidableEq, Repr

/-- `ms(`${interval}m`)`. -/
def intervalMs (cfg : Config) : Nat := cfg.interval.getD 15 * 60000

/-- `isOutdated` (lines 170–179): **false** when `lastUpdate` is unset
(the `lastUpdate &&` guard). -/
def isOutdated (cfg : Config) (now : Nat) (st : CacheSt) : Bool :=
  match st.lastUpdate with
  | some lu => now - lu > intervalMs cfg
  | none => false

/-- The staleness condition `!lastUpdate || isOutdated()` that
`loadCache` checks before refreshing. -/
def staleTrigger (cfg : Config) (now : Nat) (st : CacheSt) : Bool :=
  st.lastUpdate.isNone || isOutdated cfg now st

/-- `loadCache` (lines 184–195): refresh when stale or never populated,
propagating a refresh rejection to the caller; otherwise return the
current snapshot.  The third component counts the `fetch` calls this
`loadCache` call issued. -/
def loadCache (cfg : Config) (checkPlatform : String → Option String)
    (att : Nat → Attempt) (now : Nat) (st : CacheSt) :
    CacheSt × Except RefreshError (List (String × Release)) × Nat :=
  if staleTrigger cfg now st then
    let (st', err) := refreshCache checkPlatform att now st
    match err with
    | some e => (st', .error e, fetchCalls att 0 3)
    | none => (st', .ok st'.latestReleaseByEnvironment, fetchCalls att 0 3)
  else (st, .ok st.latestReleaseByEnvironment, 0)

/-! ## The update endpoint (`src/lib/routes.js`, lines 129–178) -/

/-- What the handler sends: the two 500 validation errors, 204, the 200
payload, or an exception escaping the handler (`semver.compare` throws
when the cached version is invalid). -/
inductive UpdateOutcome where
  | invalidVersion
  | invalidPlatform
  | noContent
  | updateAvailable (name notes pub_date url : String)
  | thrown
  deriving DecidableEq, Repr

/-- The final comparison of the handler (lines 162–177):
`compare(latestEnvironmentRelease.version, version) === 1` sends the
payload, any other comparison result falls through to 204 — and
`semver.compare` throws when the cached version is invalid. -/
def updateCompare (rel : Release) (asset : Asset) (shouldProxy : Bool)
    (baseUrl platformName environmentName version : String) : UpdateOutcome :=
  match semverCompare rel.version version with
  | none => .thrown
  | some .gt =>
    .updateAvailable rel.version rel.notes rel.pub_date
      (if shouldProxy then
        baseUrl ++ "/download/" ++ platformName ++
          "?update=true&environment=" ++ environmentName
       else asset.url)
  | some _ => .noContent

/-- The `update` handler: derive the environment from the *client's*
version string, validate it, resolve the platform alias, look up the
environment's latest release and the platform's asset, and compare.
`checkAlias` is `./aliases` (not part of the cache/routes sources);
`shouldProxy`/`baseUrl` select the private-download indirection URL. -/
def update (checkAlias : String → Option String) (shouldProxy : Bool)
    (baseUrl : String) (idx : List (String × Release))
    (platformName version : String) : UpdateOutcome :=
  let environmentName := envOf version
  if !validSemver version then .invalidVersion
  else
    match checkAlias platformName with
    | none => .invalidPlatform
    | some platform =>
      match lookup idx environmentName with
      | none => .noContent
      | some latestEnvironmentRelease =>
        match lookup latestEnvironmentRelease.platforms platform with
        | none => .noContent
        | some asset =>
          updateCompare latestEnvironmentRelease asset shouldProxy baseUrl
            platformName environmentName version

/-! ## Concurrency model for `get()`

Request handling is one logical task per request.  `loadCache` reads
`lastUpdate` and evaluates `!lastUpdate || isOutdated()` synchronously —
its first suspension point is the `fetch` inside `refreshCache`.  Hence
every `loadCache` call dispatched before the first triggered refresh
resolves observes the same shared state, and each one that observes
"stale" invokes `refreshCache` itself: there is no coordination between
in-flight refreshes.  `concurrentFetches` counts the upstream `fetch`
calls issued by `n` such simultaneously dispatched `get()` calls, task
`k` drawing its attempts from `atts k`. -/
def concurrentFetches (cfg : Config) (n : Nat) (atts : Nat → Nat → Attempt)
    (now : Nat) (st : CacheSt) : Nat :=
  (List.range n).foldl
    (fun acc k =>
      acc + (if staleTrigger cfg now st then fetchCalls (atts k) 0 3 else 0)) 0

/-! ## Concrete fixtures for witnesses and counterexamples -/

/-- A concrete stand-in for `./platform`'s `checkPlatform`. -/
def cpTest : String → Option String := fun name =>
  if name = "app.exe" then some "exe"
  else if name = "app.dmg" then some "dmg"
  else none

/-- A concrete stand-in for `./aliases`' `checkAlias`. -/
def caTest : String → Option String := fun a =>
  if a = "win" then some "exe"
  else if a = "mac" then some "dmg"
  else if a = "exe" then some "exe"
  else none

def assetExe : RawAsset :=
  ⟨"app.exe", "https://dl.example/app.exe", "https://api.example/assets/1",
    "application/octet-stream", 52300000⟩

def assetDmg : RawAsset :=
  ⟨"app.dmg", "https://dl.example/app.dmg", "https://api.example/assets/2",
    "application/octet-stream", 48160000⟩

def relProd : RawRelease :=
  ⟨some "1.2.0", false, some [assetExe], "prod notes", "2024-01-02"⟩

def relBeta : RawRelease :=
  ⟨some "1.1.0-beta", false, some [assetDmg], "beta notes", "2024-01-01"⟩

/-- Sanity: the indexing scenario of the spec (§8). -/
example :
    (indexReleases cpTest [relProd, relBeta]).map (fun idx =>
      ((lookup idx "production").map Release.version,
       (lookup idx "beta").map Release.version,
       (lookup idx "production").map fun r => r.platforms.map Prod.fst)) =
    some (some "1.2.0", some "1.1.0-beta", some ["exe"]) := by decide

/-- Sanity: the update scenario of the spec (§8). -/
example :
    (update caTest false "" ((indexReleases cpTest [relProd, relBeta]).getD [])
        "win" "1.1.0" matches .updateAvailable "1.2.0" _ _ _) = true := by
  decide

example :
    update caTest false "" ((indexReleases cpTest [relProd, relBeta]).getD [])
      "win" "1.2.0" = .noContent := by decide

example :
    update caTest false "" ((indexReleases cpTest [relProd, relBeta]).getD [])
      "bogus-platform" "1.0.0" = .invalidPlatform := by decide

/-! ## Association-list lemmas -/

theorem lookup_nil {α : Type _} (k : String) : lookup ([] : List (String × α)) k = none := rfl

theorem lookup_cons {α : Type _} (k' : String) (v' : α) (m : List (String × α)) (k : String) :
    lookup ((k', v') :: m) k = if k' = k then some v' else lookup m k := by
  by_cases h : k' = k <;> simp [lookup, List.find?, h]

theorem upsert_cons_eq {α : Type _} {k₀ k : String} (h : k₀ = k) (v₀ v : α)
    (rest : List (String × α)) :
    upsert ((k₀, v₀) :: rest) k v = (k, v) :: rest := by
  simp [upsert, h]

theorem upsert_cons_ne {α : Type _} {k₀ k : String} (h : ¬k₀ = k) (v₀ v : α)
    (rest : List (String × α)) :
    upsert ((k₀, v₀) :: rest) k v = (k₀, v₀) :: upsert rest k v := by
  simp [upsert, h]

theorem lookup_upsert_self {α : Type _} (m : List (String × α)) (k : String) (v : α) :
    lookup (upsert m k v) k = some v := by
  induction m with
  | nil => simp [upsert, lookup_cons]
  | cons p rest ih =>
    obtain ⟨k', v'⟩ := p
    by_cases h : k' = k
    · rw [upsert_cons_eq h, lookup_cons, if_pos rfl]
    · rw [upsert_cons_ne h, lookup_cons, if_neg h, ih]

theorem lookup_upsert_ne {α : Type _} (m : List (String × α)) (k k' : String) (v : α)
    (h : k' ≠ k) : lookup (upsert m k v) k' = lookup m k' := by
  have hne : ¬k = k' := fun h' => h h'.symm
  induction m with
  | nil => simp [upsert, lookup_cons, hne]
  | cons p rest ih =>
    obtain ⟨k₀, v₀⟩ := p
    by_cases h₀ : k₀ = k
    · rw [upsert_cons_eq h₀, lookup_cons, lookup_cons, if_neg hne, if_neg (h₀ ▸ hne)]
    · rw [upsert_cons_ne h₀, lookup_cons, lookup_cons, ih]

theorem mem_upsert {α : Type _} {m : List (String × α)} {k : String} {v : α}
    {x : String × α} (hx : x ∈ upsert m k v) : x = (k, v) ∨ x ∈ m := by
  induction m with
  | nil => simpa [upsert] using hx
  | cons p rest ih =>
    obtain ⟨k₀, v₀⟩ := p
    by_cases h₀ : k₀ = k
    · rw [upsert_cons_eq h₀, List.mem_cons] at hx
      rcases hx with h | h
      · exact Or.inl h
      · exact Or.inr (List.mem_cons_of_mem _ h)
    · rw [upsert_cons_ne h₀, List.mem_cons] at hx
      rcases hx with h | h
      · exact Or.inr (h ▸ List.mem_cons_self _ _)
      · rcases ih h with h' | h'
        · exact Or.inl h'
        · exact Or.inr (List.mem_cons_of_mem _ h')

theorem keys_upsert {α : Type _} (m : List (String × α)) (k : String) (v : α) :
    (upsert m k v).map Prod.fst = if k ∈ m.map Prod.fst then m.map Prod.fst
      else m.map Prod.fst ++ [k] := by
  induction m with
  | nil => simp [upsert]
  | cons p rest ih =>
    obtain ⟨k₀, v₀⟩ := p
    by_cases h₀ : k₀ = k
    · rw [upsert_cons_eq h₀]
      simp [h₀]
    · rw [upsert_cons_ne h₀]
      have hkk₀ : ¬k = k₀ := fun h => h₀ h.symm
      by_cases hk : k ∈ rest.map Prod.fst
      · simp [ih, hk, hkk₀]
      · simp [ih, hk, hkk₀]

theorem nodupKeys_upsert {α : Type _} {m : List (String × α)} (h : NodupKeys m)
    (k : String) (v : α) : NodupKeys (upsert m k v) := by
  unfold NodupKeys at *
  rw [keys_upsert]
  by_cases hk : k ∈ m.map Prod.fst
  · simpa [hk]
  · simpa [hk, List.nodup_append] using h

theorem mem_of_lookup {α : Type _} {m : List (String × α)} {k : String} {v : α}
    (h : lookup m k = some v) : (k, v) ∈ m := by
  induction m with
  | nil => simp [lookup] at h
  | cons p rest ih =>
    obtain ⟨k₀, v₀⟩ := p
    rw [lookup_cons] at h
    by_cases h₀ : k₀ = k
    · simp only [if_pos h₀, Option.some.injEq] at h
      subst h₀; subst h
      exact List.mem_cons_self _ _
    · exact List.mem_cons_of_mem _ (ih (by simpa [h₀] using h))

theorem lookup_eq_none {α : Type _} {m : List (String × α)} {k : String} :
    lookup m k = none ↔ ∀ v, (k, v) ∉ m := by
  induction m with
  | nil => simp [lookup]
  | cons p rest ih =>
    obtain ⟨k₀, v₀⟩ := p
    rw [lookup_cons]
    by_cases h₀ : k₀ = k
    · subst h₀
      rw [if_pos rfl]
      constructor
      · intro h
        exact Option.noConfusion h
      · intro h
        exact ((h v₀) (List.mem_cons_self _ _)).elim
    · simp only [if_neg h₀, ih, List.mem_cons]
      constructor
      · intro h v hv
        rcases hv with hv | hv
        · exact h₀ (congrArg Prod.fst hv).symm
        · exact h v hv
      · intro h v hv
        exact h v (Or.inr hv)

theorem lookup_of_mem {α : Type _} {m : List (String × α)} (hnd : NodupKeys m)
    {k : String} {v : α} (h : (k, v) ∈ m) : lookup m k = some v := by
  induction m with
  | nil => simp at h
  | cons p rest ih =>
    obtain ⟨k₀, v₀⟩ := p
    rw [List.mem_cons] at h
    rw [lookup_cons]
    rcases h with h | h
    · have h₁ : k = k₀ := congrArg Prod.fst h
      have h₂ : v = v₀ := congrArg Prod.snd h
      rw [if_pos h₁.symm, h₂]
    · have hk₀ : ¬k₀ = k := by
        intro he
        subst he
        have hmem : k₀ ∈ rest.map Prod.fst :=
          List.mem_map.mpr ⟨(k₀, v), h, rfl⟩
        unfold NodupKeys at hnd
        simp only [List.map_cons, List.nodup_cons] at hnd
        exact hnd.1 hmem
      have hrest : NodupKeys rest := by
        unfold NodupKeys at *
        simp only [List.map_cons, List.nodup_cons] at hnd
        exact hnd.2
      rw [if_neg hk₀]
      exact ih hrest h

theorem mem_fromEntries {α : Type _} {l : List (String × α)} {x : String × α}
    (hx : x ∈ fromEntries l) : x ∈ l := by
  have gen : ∀ (l : List (String × α)) (m : List (String × α)),
      x ∈ l.foldl (fun m kv => upsert m kv.1 kv.2) m → x ∈ m ∨ x ∈ l := by
    intro l
    induction l with
    | nil => intro m h; exact Or.inl h
    | cons kv rest ih =>
      intro m h
      rcases ih (upsert m kv.1 kv.2) h with h' | h'
      · rcases mem_upsert h' with h'' | h''
        · exact Or.inr (by simp [h''])
        · exact Or.inl h''
      · exact Or.inr (List.mem_cons_of_mem _ h')
  rcases gen l [] hx with h | h
  · simp at h
  · exact h

/-! ## Retry and refresh lemmas -/

theorem Attempt.fails_resp_ne {s : Nat} {b : Body}
    (h : (Attempt.resp s b).fails = true) : ¬s = 200 := by
  intro hs
  subst hs
  have hf : (Attempt.resp 200 b).fails = false := rfl
  rw [hf] at h
  exact Bool.noConfusion h

theorem runRetry_step (att : Nat → Attempt) (i f' : Nat)
    (h : (att i).fails = true) :
    runRetry att i (f' + 1) = runRetry att (i + 1) f' := by
  cases hai : att i with
  | transport m =>
    rw [runRetry, hai]
  | resp s b =>
    rw [hai] at h
    rw [runRetry, hai]
    show (if s = 200 then Except.ok b else runRetry att (i + 1) f') =
      runRetry att (i + 1) f'
    rw [if_neg (Attempt.fails_resp_ne h)]

theorem runRetry_last (att : Nat → Attempt) (i : Nat)
    (h : (att i).fails = true) :
    runRetry att i 0 = .error (att i).err := by
  cases hai : att i with
  | transport m =>
    rw [runRetry, hai]
    rfl
  | resp s b =>
    rw [hai] at h
    rw [runRetry, hai]
    show (if s = 200 then Except.ok b
        else Except.error (FetchErr.badStatus s)) =
      Except.error (Attempt.resp s b).err
    rw [if_neg (Attempt.fails_resp_ne h)]
    rfl

theorem runRetry_hit (att : Nat → Attempt) (i f : Nat) (b : Body)
    (h : att i = .resp 200 b) : runRetry att i f = .ok b := by
  rw [runRetry, h]
  rfl

theorem runRetry_fail (att : Nat → Attempt) :
    ∀ (f i : Nat), (∀ j, j ≤ f → (att (i + j)).fails = true) →
      runRetry att i f = .error (att (i + f)).err := by
  intro f
  induction f with
  | zero =>
    intro i h
    have h0 := h 0 (Nat.le_refl 0)
    rw [Nat.add_zero] at h0 ⊢
    exact runRetry_last att i h0
  | succ f' ih =>
    intro i h
    have h0 := h 0 (Nat.zero_le _)
    rw [Nat.add_zero] at h0
    rw [runRetry_step att i f' h0]
    rw [ih (i + 1) (fun j hj => by
      have := h (j + 1) (Nat.succ_le_succ hj)
      rwa [show i + (j + 1) = i + 1 + j by omega] at this)]
    rw [show i + 1 + f' = i + (f' + 1) by omega]

theorem runRetry_ok (att : Nat → Attempt) :
    ∀ (k f i : Nat) (b : Body), k ≤ f →
      (∀ j, j < k → (att (i + j)).fails = true) →
      att (i + k) = .resp 200 b →
      runRetry att i f = .ok b := by
  intro k
  induction k with
  | zero =>
    intro f i b _ _ hatt
    rw [Nat.add_zero] at hatt
    exact runRetry_hit att i f b hatt
  | succ k' ih =>
    intro f i b hkf hfail hatt
    have h0 := hfail 0 (Nat.zero_lt_succ _)
    rw [Nat.add_zero] at h0
    obtain ⟨f', rfl⟩ : ∃ f', f = f' + 1 := by
      cases f with
      | zero => omega
      | succ n => exact ⟨n, rfl⟩
    rw [runRetry_step att i f' h0]
    exact ih f' (i + 1) b (by omega)
      (fun j hj => by
        have := hfail (j + 1) (Nat.succ_lt_succ hj)
        rwa [show i + (j + 1) = i + 1 + j by omega] at this)
      (by rwa [show i + 1 + k' = i + (k' + 1) by omega])

theorem fetchCalls_pos (att : Nat → Attempt) (i f : Nat) :
    1 ≤ fetchCalls att i f := by
  cases f with
  | zero =>
    show 1 ≤ if (att i).fails = true then 1 else 1
    cases h : (att i).fails with
    | false => rw [if_neg Bool.false_ne_true]
    | true => rw [if_pos rfl]
  | succ f' =>
    show 1 ≤ if (att i).fails = true then 1 + fetchCalls att (i + 1) f' else 1
    cases h : (att i).fails with
    | false => rw [if_neg Bool.false_ne_true]
    | true => rw [if_pos rfl]; exact Nat.le_add_right 1 _

/-- An erroring `refreshCache` leaves both fields untouched: every
`throw` in the JS body happens before either assignment. -/
theorem refreshCache_error_state (cp : String → Option String)
    (att : Nat → Attempt) (now : Nat) (st : CacheSt) (e : RefreshError)
    (h : (refreshCache cp att now st).2 = some e) :
    (refreshCache cp att now st).1 = st := by
  unfold refreshCache at h ⊢
  cases hr : runRetry att 0 3 with
  | error e' => rfl
  | ok b =>
    rw [hr] at h
    cases b with
    | invalid => rfl
    | nonArray => rfl
    | arr data =>
      by_cases hd : data.isEmpty
      · simp [refreshApply, hd]
      · cases hidx : indexReleases cp data with
        | none => simp [refreshApply, hd, hidx]
        | some idx => simp [refreshApply, hd, hidx] at h

theorem staleTrigger_mono (cfg : Config) {now now' : Nat} (st : CacheSt)
    (h : staleTrigger cfg now st = true) (hle : now ≤ now') :
    staleTrigger cfg now' st = true := by
  unfold staleTrigger isOutdated at h ⊢
  cases hlu : st.lastUpdate with
  | none => simp
  | some lu =>
    rw [hlu] at h
    simp only [Option.isNone_some, Bool.false_or, decide_eq_true_eq] at h ⊢
    omega

/-! ## loadCache lemmas -/

theorem staleTrigger_iff (cfg : Config) (now : Nat) (st : CacheSt) :
    staleTrigger cfg now st = true ↔
      (st.lastUpdate = none ∨ isOutdated cfg now st = true) := by
  unfold staleTrigger
  cases hlu : st.lastUpdate <;> simp [hlu]

theorem loadCache_error (cfg : Config) (cp : String → Option String)
    (att : Nat → Attempt) (now : Nat) (st : CacheSt) (e : RefreshError)
    (htr : staleTrigger cfg now st = true)
    (he : (refreshCache cp att now st).2 = some e) :
    loadCache cfg cp att now st = (st, .error e, fetchCalls att 0 3) := by
  have hst := refreshCache_error_state cp att now st e he
  unfold loadCache
  rw [if_pos htr]
  rcases hre : refreshCache cp att now st with ⟨st', err⟩
  rw [hre] at he hst
  have h1 : st' = st := hst
  have h2 : err = some e := he
  subst h1
  subst h2
  rfl

theorem loadCache_refresh_ok (cfg : Config) (cp : String → Option String)
    (att : Nat → Attempt) (now : Nat) (st st' : CacheSt)
    (htr : staleTrigger cfg now st = true)
    (he : refreshCache cp att now st = (st', none)) :
    loadCache cfg cp att now st =
      (st', .ok st'.latestReleaseByEnvironment, fetchCalls att 0 3) := by
  unfold loadCache
  rw [if_pos htr, he]

theorem loadCache_stale_fetches (cfg : Config) (cp : String → Option String)
    (att : Nat → Attempt) (now : Nat) (st : CacheSt)
    (htr : staleTrigger cfg now st = true) :
    (loadCache cfg cp att now st).2.2 = fetchCalls att 0 3 := by
  unfold loadCache
  rw [if_pos htr]
  rcases hre : refreshCache cp att now st with ⟨st', err⟩
  cases err <;> rfl

theorem loadCache_fresh (cfg : Config) (cp : String → Option String)
    (att : Nat → Attempt) (now : Nat) (st : CacheSt)
    (htr : staleTrigger cfg now st = false) :
    loadCache cfg cp att now st = (st, .ok st.latestReleaseByEnvironment, 0) := by
  unfold loadCache
  rw [if_neg (by simp [htr])]

/-! ## Remaining fixtures -/

/-- First attempt succeeds with an empty release array. -/
def attOk : Nat → Attempt := fun _ => .resp 200 (.arr [])

/-- Every attempt is a transport failure. -/
def attBad : Nat → Attempt := fun _ => .transport "network down"

/-- Every attempt is an HTTP 503. -/
def att503 : Nat → Attempt := fun _ => .resp 503 .invalid

/-- First attempt is an HTTP 500; the retry gets a 200 whose body is
valid JSON but not an array. -/
def attNonArr : Nat → Attempt := fun i =>
  if i = 0 then .resp 500 .invalid else .resp 200 .nonArray

def prodRelease : Release :=
  ⟨"1.2.0", "prod notes", "2024-01-02", [("exe", mkAsset assetExe)]⟩

def betaRelease : Release :=
  ⟨"1.1.0-beta", "beta notes", "2024-01-01", [("dmg", mkAsset assetDmg)]⟩

/-- A cache populated by an earlier successful refresh. -/
def stWithData : CacheSt := ⟨[("production", prodRelease)], some 0⟩

def idxBoth : List (String × Release) :=
  [("beta", betaRelease), ("production", prodRelease)]

def idxBetaOnly : List (String × Release) := [("beta", betaRelease)]

/-! ## Claim C7 -/

/-- C7: `isOutdated()` is true iff the time since `lastUpdate` strictly
exceeds the configured interval (default 15 minutes); with `lastUpdate`
unset it returns false itself, but the stale check of `get()` treats
that case as stale: `loadCache` performs a refresh — issuing at least
one upstream fetch — exactly when `lastUpdate` is unset or
`isOutdated()` holds, and otherwise returns the current state
immediately with zero fetches. -/
theorem C7_staleness (cfg : Config) (cp : String → Option String)
    (att : Nat → Attempt) (now : Nat) (st : CacheSt) :
    (isOutdated cfg now st = true ↔
      ∃ lu, st.lastUpdate = some lu ∧ now - lu > cfg.interval.getD 15 * 60000)
    ∧ (st.lastUpdate = none → 1 ≤ (loadCache cfg cp att now st).2.2)
    ∧ (1 ≤ (loadCache cfg cp att now st).2.2 ↔
        (st.lastUpdate = none ∨ isOutdated cfg now st = true))
    ∧ (st.lastUpdate ≠ none → isOutdated cfg now st = false →
        loadCache cfg cp att now st = (st, .ok st.latestReleaseByEnvironment, 0)) := by
  have h1 : isOutdated cfg now st = true ↔
      ∃ lu, st.lastUpdate = some lu ∧ now - lu > cfg.interval.getD 15 * 60000 := by
    unfold isOutdated intervalMs
    cases hlu : st.lastUpdate <;> simp [hlu]
  have h3 : 1 ≤ (loadCache cfg cp att now st).2.2 ↔
      (st.lastUpdate = none ∨ isOutdated cfg now st = true) := by
    by_cases htr : staleTrigger cfg now st = true
    · rw [loadCache_stale_fetches cfg cp att now st htr]
      simp [fetchCalls_pos att 0 3, (staleTrigger_iff cfg now st).mp htr]
    · have hf : staleTrigger cfg now st = false := by
        cases h : staleTrigger cfg now st
        · rfl
        · exact absurd h htr
      rw [loadCache_fresh cfg cp att now st hf]
      rw [staleTrigger_iff] at htr
      simp [htr]
  refine ⟨h1, fun h => h3.mpr (Or.inl h), h3, ?_⟩
  intro hne hout
  apply loadCache_fresh
  cases h : staleTrigger cfg now st
  · rfl
  · rw [staleTrigger_iff] at h
    rcases h with h | h
    · exact absurd h hne
    · rw [hout] at h
      exact Bool.noConfusion h

/-- C7 witness: at the default 15-minute interval, 900001 ms after a
refresh the cache is outdated; at exactly 900000 ms it is fresh and
`loadCache` returns immediately with zero fetches; a never-populated
cache refreshes. -/
theorem C7_staleness_witness :
    isOutdated ⟨none⟩ 900001 ⟨[], some 0⟩ = true
    ∧ loadCache ⟨none⟩ cpTest attOk 900000 ⟨[], some 0⟩ =
        (⟨[], some 0⟩, .ok [], 0)
    ∧ 1 ≤ (loadCache ⟨none⟩ cpTest attOk 0 initialCache).2.2 := by
  refine ⟨?_, ?_, ?_⟩
  · exact (C7_staleness ⟨none⟩ cpTest attOk 900001 ⟨[], some 0⟩).1.mpr
      ⟨0, rfl, by decide⟩
  · exact (C7_staleness ⟨none⟩ cpTest attOk 900000 ⟨[], some 0⟩).2.2.2
      (by decide) (by decide)
  · exact (C7_staleness ⟨none⟩ cpTest attOk 0 initialCache).2.1 rfl

/-! ## Claim C2 -/

/-- C2 counterexample: a previously-good CacheState exists
(`stWithData`, non-empty index from a successful refresh at time 0),
the cache is stale at time 1000000, and the refresh fails — yet
`loadCache` rejects with the error instead of returning the stale
data, falsifying both "never fails to the caller" and "propagated only
when no prior data exists". -/
theorem C2_counterexample :
    stWithData.latestReleaseByEnvironment ≠ []
    ∧ staleTrigger ⟨none⟩ 1000000 stWithData = true
    ∧ loadCache ⟨none⟩ cpTest attBad 1000000 stWithData =
        (stWithData, .error (.fetchFailed (.transport "network down")), 4) := by
  refine ⟨by decide, by decide, ?_⟩
  rfl

/-- C2 as amended: when the stale check triggers a refresh and that
refresh fails, `get()` rejects with the refresh's error for every
caller — whether or not a previously-good CacheState exists — leaving
the stored state unchanged; stale data is returned only on calls whose
refresh succeeds or that find the cache fresh. -/
theorem C2_failure_always_propagates (cfg : Config)
    (cp : String → Option String) (att : Nat → Attempt) (now : Nat)
    (st : CacheSt) (e : RefreshError)
    (htr : staleTrigger cfg now st = true)
    (he : (refreshCache cp att now st).2 = some e) :
    loadCache cfg cp att now st = (st, .error e, fetchCalls att 0 3) :=
  loadCache_error cfg cp att now st e htr he

/-- C2 witness: the amended propagation at a concrete stale state with
prior data. -/
theorem C2_failure_always_propagates_witness :
    loadCache ⟨none⟩ cpTest attBad 1000000 stWithData =
      (stWithData, .error (.fetchFailed (.transport "network down")), 4) :=
  C2_failure_always_propagates ⟨none⟩ cpTest attBad 1000000 stWithData
    (.fetchFailed (.transport "network down")) (by decide) (by rfl)

/-! ## Claim C5 -/

/-- C5: when the refresh's upstream fetch fails after exhausting its
retries, the environment index and `lastUpdate` are unchanged (the
state component returned is exactly the old state), the failure
propagates to the caller of that `get()` call, and — since
`lastUpdate` did not advance — every later `get()` (any time ≥ now, any
attempt oracle) still triggers a refresh. -/
theorem C5_failed_refresh_retries_later (cfg : Config)
    (cp : String → Option String) (att : Nat → Attempt) (now : Nat)
    (st : CacheSt)
    (hfail : ∀ j, j ≤ 3 → (att j).fails = true)
    (hstale : staleTrigger cfg now st = true) :
    refreshCache cp att now st = (st, some (.fetchFailed (att 3).err))
    ∧ loadCache cfg cp att now st =
        (st, .error (.fetchFailed (att 3).err), fetchCalls att 0 3)
    ∧ ∀ now', now ≤ now' → ∀ att' : Nat → Attempt,
        1 ≤ (loadCache cfg cp att' now' st).2.2 := by
  have hrr : runRetry att 0 3 = .error (att 3).err := by
    have h := runRetry_fail att 3 0 (fun j hj => by simpa using hfail j hj)
    simpa using h
  have h1 : refreshCache cp att now st = (st, some (.fetchFailed (att 3).err)) := by
    unfold refreshCache
    rw [hrr]
    rfl
  refine ⟨h1, ?_, ?_⟩
  · exact loadCache_error cfg cp att now st _ hstale (by rw [h1])
  · intro now' hle att'
    have htr' := staleTrigger_mono cfg st hstale hle
    rw [loadCache_stale_fetches cfg cp att' now' st htr']
    exact fetchCalls_pos att' 0 3

/-- C5 witness: transport failures on all four attempts against the
empty cache at time 5; the later call at time 6 still fetches. -/
theorem C5_failed_refresh_witness :
    refreshCache cpTest attBad 5 initialCache =
      (initialCache, some (.fetchFailed (.transport "network down")))
    ∧ loadCache ⟨none⟩ cpTest attBad 5 initialCache =
        (initialCache, .error (.fetchFailed (.transport "network down")), 4)
    ∧ 1 ≤ (loadCache ⟨none⟩ cpTest attOk 6 initialCache).2.2 := by
  obtain ⟨h1, h2, h3⟩ := C5_failed_refresh_retries_later ⟨none⟩ cpTest attBad 5
    initialCache (fun j hj => rfl) (by rfl)
  exact ⟨h1, h2, h3 6 (by omega) attOk⟩

/-! ## Claim C6 -/

/-- C6: the release fetch retries failing attempts (non-200 responses
and transport errors) through the configured budget of 3 retries,
surfacing only the final attempt's error — for a non-200 final response
an error carrying that HTTP status; whereas once any attempt returns
200, a body that is valid JSON but not an array, or an empty array, is
not retried and is not an error: the refresh returns with the state
(index and `lastUpdate`) unchanged. -/
theorem C6_fetch_retry_contract (cp : String → Option String)
    (att : Nat → Attempt) (now : Nat) (st : CacheSt) :
    ((∀ j, j ≤ 3 → (att j).fails = true) →
      refreshCache cp att now st = (st, some (.fetchFailed (att 3).err))
      ∧ ∀ s b, att 3 = .resp s b → (att 3).err = .badStatus s)
    ∧ (∀ k b, k ≤ 3 → (∀ j, j < k → (att j).fails = true) →
        att k = .resp 200 b → (b = .nonArray ∨ b = .arr []) →
        refreshCache cp att now st = (st, none)) := by
  constructor
  · intro hfail
    have hrr : runRetry att 0 3 = .error (att 3).err := by
      have h := runRetry_fail att 3 0 (fun j hj => by simpa using hfail j hj)
      simpa using h
    constructor
    · unfold refreshCache
      rw [hrr]
      rfl
    · intro s b hab
      rw [hab]
      rfl
  · intro k b hk hfail hab hbody
    have hrr : runRetry att 0 3 = .ok b := by
      exact runRetry_ok att k 3 0 b hk
        (fun j hj => by simpa using hfail j hj) (by simpa using hab)
    unfold refreshCache
    rw [hrr]
    rcases hbody with rfl | rfl
    · rfl
    · rfl

/-- C6 witness: four straight 503s surface `badStatus 503`; a 500 then
a 200 with a non-array JSON body ends quietly with the state
unchanged. -/
theorem C6_fetch_retry_witness :
    refreshCache cpTest att503 0 initialCache =
      (initialCache, some (.fetchFailed (.badStatus 503)))
    ∧ refreshCache cpTest attNonArr 0 initialCache = (initialCache, none) := by
  constructor
  · exact ((C6_fetch_retry_contract cpTest att503 0 initialCache).1
      (fun j hj => rfl)).1
  · exact (C6_fetch_retry_contract cpTest attNonArr 0 initialCache).2 1
      .nonArray (by omega)
      (fun j hj => by
        have hj0 : j = 0 := by omega
        subst hj0
        rfl)
      (by rfl) (Or.inl rfl)

/-! ## Claim C9 -/

/-- C9: the code has no single-flight coordination — two `get()` calls
dispatched in the same tick against a never-populated cache both
observe "stale" and each runs its own `refreshCache`, so two upstream
fetches are issued where the claim demands exactly one. -/
theorem C9_no_single_flight :
    concurrentFetches ⟨none⟩ 2 (fun _ => attOk) 0 initialCache = 2 := by
  rfl

/-! ## Claim C10 -/

/-- C10: the update handler derives the environment from the client's
version string — the segment after the first hyphen, "production" when
absent — not from any independent input: whenever that segment is
"beta", the decision depends only on the cache's "beta" entry (two
caches agreeing on "beta" yield identical responses, whatever either
holds for "production" or any other environment), and the derived
environment is "beta". -/
theorem C10_env_from_version (ca : String → Option String)
    (shouldProxy : Bool) (baseUrl : String)
    (idx₁ idx₂ : List (String × Release)) (p v : String)
    (hv : (splitChar '-' v.data).get? 1 = some "beta".data)
    (hagree : lookup idx₁ "beta" = lookup idx₂ "beta") :
    update ca shouldProxy baseUrl idx₁ p v =
      update ca shouldProxy baseUrl idx₂ p v
    ∧ envOf v = "beta" := by
  have henv : envOf v = "beta" := by
    unfold envOf
    rw [hv]
  refine ⟨?_, henv⟩
  simp only [update, henv, hagree]

/-- C10 witness: a "-beta" client version is decided against the beta
entry alone — deleting the production entry changes nothing. -/
theorem C10_env_from_version_witness :
    update caTest false "" idxBoth "mac" "1.0.0-beta" =
      update caTest false "" idxBetaOnly "mac" "1.0.0-beta"
    ∧ envOf "1.0.0-beta" = "beta" :=
  C10_env_from_version caTest false "" idxBoth idxBetaOnly "mac" "1.0.0-beta"
    (by rfl) (by rfl)

/-! ## Claim C3 -/

/-- An upstream release whose tag is not a valid semver. -/
def relInvalid : RawRelease :=
  ⟨some "vv1.0.0", false, some [assetExe], "notes", "2024-01-01"⟩

/-- Upstream immediately serves the single invalid-tagged release. -/
def attInvalid : Nat → Attempt := fun _ => .resp 200 (.arr [relInvalid])

def relInvalidIndexed : Release :=
  ⟨"vv1.0.0", "notes", "2024-01-01", [("exe", mkAsset assetExe)]⟩

/-- C3 counterexample: a successful refresh can retain a release whose
version is not a valid semver (no validation happens during indexing);
for such an environment — present in the cache, platform resolved,
client version valid — `update` neither offers an update nor answers
NoContent: `semver.compare` throws.  The claim's dichotomy
(UpdateAvailable iff greater, otherwise NoContent) is violated. -/
theorem C3_counterexample :
    (refreshCache cpTest attInvalid 7 initialCache).2 = none
    ∧ lookup (refreshCache cpTest attInvalid 7
        initialCache).1.latestReleaseByEnvironment "production" =
        some relInvalidIndexed
    ∧ lookup relInvalidIndexed.platforms "exe" = some (mkAsset assetExe)
    ∧ caTest "exe" = some "exe"
    ∧ validSemver "1.0.0" = true
    ∧ validSemver relInvalidIndexed.version = false
    ∧ update caTest false "" (refreshCache cpTest attInvalid 7
        initialCache).1.latestReleaseByEnvironment "exe" "1.0.0" = .thrown := by
  refine ⟨rfl, rfl, rfl, rfl, by decide, by decide, rfl⟩

/-- C3 as amended: *provided the cached release's version is itself a
syntactically valid semver*, for every environment present in the cache
whose asset table contains the resolved platform and every valid
`currentVersion`, the decision is NoContent exactly when the cached
version is not strictly greater; a strictly greater cached version
yields the UpdateAvailable payload; and deciding at `currentVersion`
equal to the cached version always yields NoContent. -/
theorem C3_update_iff_greater (ca : String → Option String)
    (shouldProxy : Bool) (baseUrl : String) (idx : List (String × Release))
    (p v : String) (rel : Release) (plat : String) (asset : Asset)
    (hv : validSemver v = true)
    (henv : lookup idx (envOf v) = some rel)
    (hvrel : validSemver rel.version = true)
    (hp : ca p = some plat)
    (ha : lookup rel.platforms plat = some asset) :
    (update ca shouldProxy baseUrl idx p v = .noContent ↔
      ¬semverCompare rel.version v = some .gt)
    ∧ (semverCompare rel.version v = some .gt →
        update ca shouldProxy baseUrl idx p v =
          .updateAvailable rel.version rel.notes rel.pub_date
            (if shouldProxy then
              baseUrl ++ "/download/" ++ p ++ "?update=true&environment=" ++
                envOf v
             else asset.url))
    ∧ (v = rel.version → update ca shouldProxy baseUrl idx p v = .noContent) := by
  have hupd : update ca shouldProxy baseUrl idx p v =
      updateCompare rel asset shouldProxy baseUrl p (envOf v) v := by
    simp [update, hv, hp, henv, ha]
  obtain ⟨o, ho⟩ := semverCompare_total hvrel hv
  refine ⟨?_, ?_, ?_⟩
  · rw [hupd]
    unfold updateCompare
    rw [ho]
    cases o <;> simp
  · intro hgt
    rw [hupd]
    unfold updateCompare
    rw [hgt]
  · intro hveq
    subst hveq
    rw [hupd]
    unfold updateCompare
    rw [semverCompare_self hvrel]

/-- C3 witness: at the §8 scenario, `decide("win", "1.1.0")` against
cached production 1.2.0 offers 1.2.0; `decide("win", "1.2.0")` is
NoContent. -/
theorem C3_update_iff_greater_witness :
    update caTest false "" idxBoth "win" "1.1.0" =
      .updateAvailable "1.2.0" "prod notes" "2024-01-02"
        "https://dl.example/app.exe"
    ∧ update caTest false "" idxBoth "win" "1.2.0" = .noContent := by
  constructor
  · exact (C3_update_iff_greater caTest false "" idxBoth "win" "1.1.0"
      prodRelease "exe" (mkAsset assetExe) (by decide) (by rfl) (by decide)
      (by rfl) (by rfl)).2.1 (by decide)
  · exact (C3_update_iff_greater caTest false "" idxBoth "win" "1.2.0"
      prodRelease "exe" (mkAsset assetExe) (by decide) (by rfl) (by decide)
      (by rfl) (by rfl)).2.2 (by rfl)

/-! ## Claim C4 -/

def relTieA : RawRelease :=
  ⟨some "v1.2.0", false, some [assetExe], "first", "t1"⟩

def relTieB : RawRelease :=
  ⟨some "1.2.0", false, some [assetDmg], "second", "t2"⟩

/-- C4 counterexample: `v1.2.0` and `1.2.0` compare equal under semver
(both production, distinct tags); the index keeps the **earlier**
release (`v1.2.0`), not the later-processed one as claimed — the code
replaces a bucket only on a strictly greater tag. -/
theorem C4_counterexample :
    semverCompare "v1.2.0" "1.2.0" = some .eq
    ∧ "v1.2.0" ≠ "1.2.0"
    ∧ envOf "v1.2.0" = envOf "1.2.0"
    ∧ (indexReleases cpTest [relTieA, relTieB]).map (fun idx =>
        (lookup idx "production").map Release.version) =
      some (some "v1.2.0") := by
  exact ⟨by decide, by decide, by decide, by rfl⟩

/-- C4 as amended: when two non-draft releases in the same environment
carry semver-equal (valid) versions, the **earlier-processed** release
(upstream order) is retained in the index. -/
theorem C4_tie_earlier_wins (cp : String → Option String)
    (r1 r2 : RawRelease)
    (hd1 : r1.draft = false) (hd2 : r2.draft = false)
    (hg1 : passesGuard r1 = true) (hg2 : passesGuard r2 = true)
    (henv : envOf (tagOf r2) = envOf (tagOf r1))
    (heq : semverCompare (tagOf r2) (tagOf r1) = some .eq)
    (hplat : (buildPlatforms cp (r1.assets.getD [])).isEmpty = false) :
    (indexReleases cp [r1, r2]).map (fun idx =>
      (lookup idx (envOf (tagOf r1))).map Release.version) =
    some (some (tagOf r1)) := by
  have hb1 : bucketStep [] r1 = some [(envOf (tagOf r1), r1)] := by
    unfold bucketStep
    rw [if_pos hg1]
    rfl
  have hb2 : bucketStep [(envOf (tagOf r1), r1)] r2 =
      some [(envOf (tagOf r1), r1)] := by
    unfold bucketStep
    rw [if_pos hg2, henv]
    rw [show lookup [(envOf (tagOf r1), r1)] (envOf (tagOf r1)) = some r1 from
      by rw [lookup_cons, if_pos rfl]]
    show (match semverGt (tagOf r2) (tagOf r1) with
      | none => none
      | some true => some (upsert [(envOf (tagOf r1), r1)] (envOf (tagOf r1)) r2)
      | some false => some [(envOf (tagOf r1), r1)]) =
      some [(envOf (tagOf r1), r1)]
    rw [show semverGt (tagOf r2) (tagOf r1) = some false from by
      unfold semverGt
      rw [heq]
      rfl]
  have hbuckets : bucketize [r1, r2] = some [(envOf (tagOf r1), r1)] := by
    unfold bucketize
    simp only [List.filter, hd1, hd2, List.foldlM, hb1, Option.bind_eq_bind,
      Option.some_bind, hb2]
    rfl
  unfold indexReleases
  rw [hbuckets]
  have hie : indexEntry cp r1 = some
      { version := tagOf r1
        notes := r1.body
        pub_date := r1.published_at
        platforms := buildPlatforms cp (r1.assets.getD []) } := by
    unfold indexEntry
    rw [if_neg (by rw [hplat]; exact Bool.false_ne_true)]
  simp only [Option.bind_eq_bind, Option.some_bind, List.filterMap, hie,
    Option.map_some, Option.map_none]
  simp [lookup_cons]

/-- C4 witness: the tie `v1.2.0` vs `1.2.0` retains the first. -/
theorem C4_tie_earlier_wins_witness :
    (indexReleases cpTest [relTieA, relTieB]).map (fun idx =>
      (lookup idx (envOf (tagOf relTieA))).map Release.version) =
    some (some (tagOf relTieA)) :=
  C4_tie_earlier_wins cpTest relTieA relTieB rfl rfl (by decide) (by decide)
    (by decide) (by decide) (by decide)

/-! ## Order helpers for the maximum argument -/

theorem semverCompare_nGt_trans {a b c : String} {oab obc : Ordering}
    (hab : semverCompare a b = some oab) (hna : oab ≠ .gt)
    (hbc : semverCompare b c = some obc) (hnb : obc ≠ .gt) :
    semverCompare a c ≠ some .gt := by
  intro hac
  cases hpa : parseSemver a <;> cases hpb : parseSemver b <;>
    cases hpc : parseSemver c <;> simp_all [semverCompare]
  rename_i pa pb pc
  subst hab
  subst hbc
  cases hoab : scmp pa pb with
  | gt => exact hna hoab
  | eq =>
    have hba : scmp pb pa = .eq := by
      have := scmp_lawful.swap pa pb
      rw [hoab] at this
      simpa [Ordering.swap] using this.symm
    exact hnb (scmp_lawful.eq_gt_trans hba hac)
  | lt =>
    have hba : scmp pb pa = .gt := by
      have := scmp_lawful.swap pa pb
      rw [hoab] at this
      simpa [Ordering.swap] using this.symm
    exact hnb (scmp_lawful.gt_trans hba hac)

/-! ## The bucket-fold invariant (phase 1 of the indexer) -/

/-- Soundness of the per-environment fold: under semver-valid tags it
never throws, keeps unique keys, and each bucket entry passed the
guard, belongs to its environment, and is a semver maximum — no release
of the processed list (nor any pre-existing entry of its bucket)
compares strictly greater. -/
theorem bucketFold_sound :
    ∀ (l : List RawRelease) (m : List (String × RawRelease)),
      (∀ r ∈ l, passesGuard r = true → validSemver (tagOf r) = true) →
      NodupKeys m →
      (∀ env r, lookup m env = some r →
        passesGuard r = true ∧ envOf (tagOf r) = env ∧
        validSemver (tagOf r) = true) →
      ∃ m', l.foldlM bucketStep m = some m' ∧ NodupKeys m' ∧
        (∀ env r', lookup m' env = some r' →
          passesGuard r' = true ∧ envOf (tagOf r') = env ∧
          validSemver (tagOf r') = true ∧
          (lookup m env = some r' ∨ r' ∈ l) ∧
          (∀ r'' ∈ l, passesGuard r'' = true → envOf (tagOf r'') = env →
            semverCompare (tagOf r'') (tagOf r') ≠ some .gt) ∧
          (∀ r₀, lookup m env = some r₀ →
            semverCompare (tagOf r₀) (tagOf r') ≠ some .gt)) := by
  intro l
  induction l with
  | nil =>
    intro m hval hnd hm
    refine ⟨m, rfl, hnd, ?_⟩
    intro env r' hl
    obtain ⟨hp, he, hv⟩ := hm env r' hl
    refine ⟨hp, he, hv, Or.inl hl, by simp, ?_⟩
    intro r₀ hl₀
    rw [hl₀] at hl
    obtain rfl : r₀ = r' := Option.some.inj hl
    exact semverCompare_not_gt_self
  | cons r l' ih =>
    intro m hval hnd hm
    have hval' : ∀ x ∈ l', passesGuard x = true → validSemver (tagOf x) = true :=
      fun x hx => hval x (List.mem_cons_of_mem _ hx)
    by_cases hg : passesGuard r = true
    case neg =>
      -- guard failed: release skipped entirely
      have hstep : bucketStep m r = some m := by
        unfold bucketStep
        rw [if_neg hg]
      obtain ⟨m', hfold, hnd', hprop⟩ := ih m hval' hnd hm
      refine ⟨m', ?_, hnd', ?_⟩
      · rw [List.foldlM_cons, hstep]
        exact hfold
      · intro env r' hl'
        obtain ⟨hp, he, hv, horig, hmax, hold⟩ := hprop env r' hl'
        refine ⟨hp, he, hv, ?_, ?_, hold⟩
        · rcases horig with h | h
          · exact Or.inl h
          · exact Or.inr (List.mem_cons_of_mem _ h)
        · intro r'' hmem hp'' he''
          rcases List.mem_cons.mp hmem with heq | hmem'
          · rw [heq] at hp''
            exact absurd hp'' hg
          · exact hmax r'' hmem' hp'' he''
    case pos =>
      have hvr : validSemver (tagOf r) = true :=
        hval r (List.mem_cons_self _ _) hg
      cases hcur : lookup m (envOf (tagOf r)) with
      | none =>
        -- first release of its environment: insert
        have hstep : bucketStep m r = some (upsert m (envOf (tagOf r)) r) := by
          unfold bucketStep
          rw [if_pos hg, hcur]
        have hm₁ : ∀ env x, lookup (upsert m (envOf (tagOf r)) r) env = some x →
            passesGuard x = true ∧ envOf (tagOf x) = env ∧
            validSemver (tagOf x) = true := by
          intro env x hx
          by_cases henv : env = envOf (tagOf r)
          · subst henv
            rw [lookup_upsert_self] at hx
            obtain rfl : r = x := Option.some.inj hx
            exact ⟨hg, rfl, hvr⟩
          · rw [lookup_upsert_ne m _ env r henv] at hx
            exact hm env x hx
        obtain ⟨m', hfold, hnd', hprop⟩ := ih (upsert m (envOf (tagOf r)) r)
          hval' (nodupKeys_upsert hnd _ _) hm₁
        refine ⟨m', ?_, hnd', ?_⟩
        · rw [List.foldlM_cons, hstep]
          exact hfold
        · intro env r' hl'
          obtain ⟨hp, he, hv, horig, hmax, hold⟩ := hprop env r' hl'
          by_cases henv : env = envOf (tagOf r)
          · subst henv
            have hrm₁ : lookup (upsert m (envOf (tagOf r)) r) (envOf (tagOf r)) =
                some r := lookup_upsert_self ..
            refine ⟨hp, he, hv, ?_, ?_, ?_⟩
            · rcases horig with h | h
              · rw [hrm₁] at h
                obtain rfl : r = r' := Option.some.inj h
                exact Or.inr (List.mem_cons_self _ _)
              · exact Or.inr (List.mem_cons_of_mem _ h)
            · intro r'' hmem hp'' he''
              rcases List.mem_cons.mp hmem with heq | hmem'
              · rw [heq]
                exact hold r hrm₁
              · exact hmax r'' hmem' hp'' he''
            · intro r₀ h₀
              rw [hcur] at h₀
              exact Option.noConfusion h₀
          · have hne : lookup (upsert m (envOf (tagOf r)) r) env = lookup m env :=
              lookup_upsert_ne m _ env r henv
            refine ⟨hp, he, hv, ?_, ?_, ?_⟩
            · rcases horig with h | h
              · exact Or.inl (hne ▸ h)
              · exact Or.inr (List.mem_cons_of_mem _ h)
            · intro r'' hmem hp'' he''
              rcases List.mem_cons.mp hmem with heq | hmem'
              · rw [heq] at he''
                exact absurd he''.symm henv
              · exact hmax r'' hmem' hp'' he''
            · intro r₀ h₀
              exact hold r₀ (hne ▸ h₀)
      | some cur =>
        obtain ⟨hpcur, hecur, hvcur⟩ := hm _ cur hcur
        obtain ⟨o, ho⟩ := semverCompare_total hvr hvcur
        have hgt : semverGt (tagOf r) (tagOf cur) = some (o == .gt) := by
          unfold semverGt
          rw [ho]
          rfl
        by_cases hogt : o = .gt
        · -- strictly greater: replace the bucket entry
          subst hogt
          have hstep : bucketStep m r = some (upsert m (envOf (tagOf r)) r) := by
            unfold bucketStep
            rw [if_pos hg, hcur]
            show (match semverGt (tagOf r) (tagOf cur) with
              | none => none
              | some true => some (upsert m (envOf (tagOf r)) r)
              | some false => some m) = some (upsert m (envOf (tagOf r)) r)
            rw [hgt]
            rfl
          have hm₁ : ∀ env x, lookup (upsert m (envOf (tagOf r)) r) env = some x →
              passesGuard x = true ∧ envOf (tagOf x) = env ∧
              validSemver (tagOf x) = true := by
            intro env x hx
            by_cases henv : env = envOf (tagOf r)
            · subst henv
              rw [lookup_upsert_self] at hx
              obtain rfl : r = x := Option.some.inj hx
              exact ⟨hg, rfl, hvr⟩
            · rw [lookup_upsert_ne m _ env r henv] at hx
              exact hm env x hx
          obtain ⟨m', hfold, hnd', hprop⟩ := ih (upsert m (envOf (tagOf r)) r)
            hval' (nodupKeys_upsert hnd _ _) hm₁
          refine ⟨m', ?_, hnd', ?_⟩
          · rw [List.foldlM_cons, hstep]
            exact hfold
          · intro env r' hl'
            obtain ⟨hp, he, hv, horig, hmax, hold⟩ := hprop env r' hl'
            by_cases henv : env = envOf (tagOf r)
            · subst henv
              have hrm₁ : lookup (upsert m (envOf (tagOf r)) r) (envOf (tagOf r)) =
                  some r := lookup_upsert_self ..
              have hnrr' : semverCompare (tagOf r) (tagOf r') ≠ some .gt :=
                hold r hrm₁
              refine ⟨hp, he, hv, ?_, ?_, ?_⟩
              · rcases horig with h | h
                · rw [hrm₁] at h
                  obtain rfl : r = r' := Option.some.inj h
                  exact Or.inr (List.mem_cons_self _ _)
                · exact Or.inr (List.mem_cons_of_mem _ h)
              · intro r'' hmem hp'' he''
                rcases List.mem_cons.mp hmem with heq | hmem'
                · rw [heq]
                  exact hnrr'
                · exact hmax r'' hmem' hp'' he''
              · intro r₀ h₀
                rw [hcur] at h₀
                obtain rfl : cur = r₀ := Option.some.inj h₀
                -- r beat cur, and nothing later beat r: cur cannot beat r'
                intro hcgt
                exact hnrr' (semverCompare_gt_trans ho hcgt)
            · have hne : lookup (upsert m (envOf (tagOf r)) r) env = lookup m env :=
                lookup_upsert_ne m _ env r henv
              refine ⟨hp, he, hv, ?_, ?_, ?_⟩
              · rcases horig with h | h
                · exact Or.inl (hne ▸ h)
                · exact Or.inr (List.mem_cons_of_mem _ h)
              · intro r'' hmem hp'' he''
                rcases List.mem_cons.mp hmem with heq | hmem'
                · rw [heq] at he''
                  exact absurd he''.symm henv
                · exact hmax r'' hmem' hp'' he''
              · intro r₀ h₀
                exact hold r₀ (hne ▸ h₀)
        · -- not strictly greater: keep the existing entry
          have hstep : bucketStep m r = some m := by
            unfold bucketStep
            rw [if_pos hg, hcur]
            show (match semverGt (tagOf r) (tagOf cur) with
              | none => none
              | some true => some (upsert m (envOf (tagOf r)) r)
              | some false => some m) = some m
            rw [hgt, show (o == Ordering.gt) = false from by
              cases o with
              | lt => rfl
              | eq => rfl
              | gt => exact absurd rfl hogt]
          obtain ⟨m', hfold, hnd', hprop⟩ := ih m hval' hnd hm
          refine ⟨m', ?_, hnd', ?_⟩
          · rw [List.foldlM_cons, hstep]
            exact hfold
          · intro env r' hl'
            obtain ⟨hp, he, hv, horig, hmax, hold⟩ := hprop env r' hl'
            refine ⟨hp, he, hv, ?_, ?_, hold⟩
            · rcases horig with h | h
              · exact Or.inl h
              · exact Or.inr (List.mem_cons_of_mem _ h)
            · intro r'' hmem hp'' he''
              rcases List.mem_cons.mp hmem with heq | hmem'
              · -- ¬ r > r' from r ≤ cur and cur ≤ r'
                rw [heq] at hp'' he'' ⊢
                have hncur : semverCompare (tagOf cur) (tagOf r') ≠ some .gt :=
                  hold cur (he'' ▸ hcur)
                obtain ⟨ocr', hocr'⟩ := semverCompare_total hvcur hv
                have hocrne : ocr' ≠ .gt := by
                  intro hh
                  subst hh
                  exact hncur hocr'
                exact semverCompare_nGt_trans ho hogt hocr' hocrne
              · exact hmax r'' hmem' hp'' he''
/-! ## Phase-2 lemmas (platform tables) -/

theorem buildPlatforms_sound (cp : String → Option String)
    (assets : List RawAsset) :
    ∀ ka ∈ buildPlatforms cp assets, cp ka.2.name = some ka.1 := by
  intro ka hka
  obtain ⟨k, a⟩ := ka
  have hmem := mem_fromEntries hka
  simp only [List.mem_filterMap] at hmem
  obtain ⟨a0, ha0, hmap⟩ := hmem
  cases hcp : cp a0.name with
  | none =>
    rw [hcp] at hmap
    exact Option.noConfusion hmap
  | some p =>
    rw [hcp] at hmap
    simp only [Option.map_some', Option.some.injEq, Prod.mk.injEq] at hmap
    obtain ⟨hp, ha⟩ := hmap
    subst hp
    subst ha
    rw [show (mkAsset a0).name = a0.name from rfl, hcp]

theorem indexEntry_sound (cp : String → Option String) (r : RawRelease)
    (rel : Release) (h : indexEntry cp r = some rel) :
    rel.platforms ≠ []
    ∧ rel.platforms = buildPlatforms cp (r.assets.getD [])
    ∧ rel.version = tagOf r := by
  unfold indexEntry at h
  by_cases hp : (buildPlatforms cp (r.assets.getD [])).isEmpty
  · rw [if_pos hp] at h
    exact Option.noConfusion h
  · rw [if_neg hp] at h
    obtain rfl := Option.some.inj h
    refine ⟨?_, rfl, rfl⟩
    intro hnil
    have hb : buildPlatforms cp (r.assets.getD []) = [] := hnil
    exact hp (by rw [hb]; rfl)

theorem indexReleases_split (cp : String → Option String)
    (data : List RawRelease) (idx : List (String × Release))
    (h : indexReleases cp data = some idx) :
    ∃ buckets, bucketize data = some buckets ∧
      idx = buckets.filterMap fun er =>
        (indexEntry cp er.2).map fun rel => (er.1, rel) := by
  unfold indexReleases at h
  cases hb : bucketize data with
  | none =>
    rw [hb] at h
    exact Option.noConfusion h
  | some buckets =>
    rw [hb] at h
    simp only [Option.bind_eq_bind, Option.some_bind, Option.pure_def,
      Option.some.injEq] at h
    exact ⟨buckets, rfl, h.symm⟩

theorem lookup_index_of_buckets (cp : String → Option String)
    (buckets : List (String × RawRelease)) (hnd : NodupKeys buckets)
    (env : String) (rel : Release)
    (h : lookup (buckets.filterMap fun er =>
        (indexEntry cp er.2).map fun rel => (er.1, rel)) env = some rel) :
    ∃ r, lookup buckets env = some r ∧ indexEntry cp r = some rel := by
  have hmem := mem_of_lookup h
  simp only [List.mem_filterMap] at hmem
  obtain ⟨⟨e, r⟩, hmem', hmap⟩ := hmem
  cases hie : indexEntry cp r with
  | none =>
    rw [hie] at hmap
    exact Option.noConfusion hmap
  | some rel' =>
    rw [hie] at hmap
    simp only [Option.map_some', Option.some.injEq, Prod.mk.injEq] at hmap
    obtain ⟨he, hrel⟩ := hmap
    subst he
    subst hrel
    exact ⟨r, lookup_of_mem hnd hmem', hie⟩

/-! ## Claim C1 -/

/-- C1 counterexample: a non-draft release whose tag is not a valid
semver is not excluded during indexing — it is retained and selected as
the environment's latest. -/
theorem C1_counterexample :
    validSemver (tagOf relInvalid) = false
    ∧ relInvalid.draft = false
    ∧ (indexReleases cpTest [relInvalid]).map (fun idx =>
        (lookup idx "production").map Release.version) =
      some (some "vv1.0.0") := by
  exact ⟨by decide, rfl, by rfl⟩

/-- C1 as amended: no semver validation happens during indexing, but
**when every guard-passing upstream release carries a syntactically
valid tag**, indexing succeeds and, per environment, the retained
release is a non-draft, guard-passing release of that environment whose
version no other such release of the environment exceeds under semver
ordering (draft releases are filtered out up front and never
selected).  An invalid tag, by contrast, is either retained verbatim
(when first in its environment, see the counterexample) or makes the
refresh throw. -/
theorem C1_latest_selection (cp : String → Option String)
    (data : List RawRelease)
    (hval : ∀ r ∈ data, passesGuard r = true → validSemver (tagOf r) = true) :
    ∃ idx, indexReleases cp data = some idx
    ∧ ∀ env rel, lookup idx env = some rel →
        ∃ r, r ∈ data ∧ r.draft = false ∧ passesGuard r = true ∧
          envOf (tagOf r) = env ∧ rel.version = tagOf r ∧
          ∀ r', r' ∈ data → r'.draft = false → passesGuard r' = true →
            envOf (tagOf r') = env →
            semverCompare (tagOf r') rel.version ≠ some .gt := by
  obtain ⟨buckets, hfold, hnd, hprop⟩ :=
    bucketFold_sound (data.filter fun r => !r.draft) []
      (fun r hr hp => hval r (List.mem_of_mem_filter hr) hp)
      (by simp [NodupKeys])
      (by intro env r h; exact Option.noConfusion h)
  refine ⟨buckets.filterMap fun er =>
    (indexEntry cp er.2).map fun rel => (er.1, rel), ?_, ?_⟩
  · unfold indexReleases bucketize
    rw [hfold]
    rfl
  · intro env rel hl
    obtain ⟨r, hlr, hie⟩ := lookup_index_of_buckets cp buckets hnd env rel hl
    obtain ⟨hpass, henv, hvalid, horig, hmax, _⟩ := hprop env r hlr
    obtain ⟨_, _, hver⟩ := indexEntry_sound cp r rel hie
    have hrdata : r ∈ data ∧ r.draft = false := by
      rcases horig with h | h
      · exact absurd h (by intro hh; exact Option.noConfusion hh)
      · have := List.mem_filter.mp h
        exact ⟨this.1, by simpa using this.2⟩
    refine ⟨r, hrdata.1, hrdata.2, hpass, henv, hver, ?_⟩
    intro r' hr'd hr'draft hr'pass hr'env
    rw [hver]
    exact hmax r' (List.mem_filter.mpr ⟨hr'd, by simp [hr'draft]⟩) hr'pass hr'env

/-- An older production release processed before the newer one. -/
def relOld : RawRelease :=
  ⟨some "1.0.0", false, some [assetExe], "old notes", "2023-12-01"⟩

/-- C1 witness: with `[relOld, relProd]` (1.0.0 then 1.2.0, both
production, both valid) indexing succeeds, retains 1.2.0, and by the
theorem no candidate of the environment — in particular `relOld` —
compares strictly greater than the retained version. -/
theorem C1_latest_selection_witness :
    indexReleases cpTest [relOld, relProd] = some [("production", prodRelease)]
    ∧ semverCompare (tagOf relOld) prodRelease.version ≠ some .gt := by
  refine ⟨by rfl, ?_⟩
  obtain ⟨idx, hidx, hprop⟩ := C1_latest_selection cpTest [relOld, relProd]
    (by
      intro r hr hp
      simp only [List.mem_cons, List.mem_singleton] at hr
      rcases hr with rfl | rfl | h
      · decide
      · decide
      · exact absurd h (List.not_mem_nil r))
  have hidx' : idx = [("production", prodRelease)] := by
    have h0 : indexReleases cpTest [relOld, relProd] =
        some [("production", prodRelease)] := by rfl
    rw [hidx] at h0
    exact Option.some.inj h0
  subst hidx'
  obtain ⟨r, hrmem, hdraft, hpass, henv, hver, hmax⟩ :=
    hprop "production" prodRelease (by rw [lookup_cons, if_pos rfl])
  exact hmax relOld (by simp) rfl (by decide) (by decide)

/-! ## Claim C8 -/

/-- The cache state after a sequence of refresh attempts (each step: an
attempt oracle and a clock reading), starting from the empty state; a
failed refresh leaves the state as it was. -/
def runRefreshes (cp : String → Option String)
    (steps : List ((Nat → Attempt) × Nat)) : CacheSt :=
  steps.foldl (fun st s => (refreshCache cp s.1 s.2 st).1) initialCache

theorem indexReleases_platform_entries (cp : String → Option String)
    (data : List RawRelease) (idx : List (String × Release))
    (h : indexReleases cp data = some idx) :
    ∀ env rel, (env, rel) ∈ idx →
      rel.platforms ≠ [] ∧ ∀ ka ∈ rel.platforms, cp ka.2.name = some ka.1 := by
  intro env rel hmem
  obtain ⟨buckets, hb, hidx⟩ := indexReleases_split cp data idx h
  rw [hidx] at hmem
  simp only [List.mem_filterMap] at hmem
  obtain ⟨⟨e, r⟩, hmem', hmap⟩ := hmem
  cases hie : indexEntry cp r with
  | none =>
    rw [hie] at hmap
    exact Option.noConfusion hmap
  | some rel' =>
    rw [hie] at hmap
    simp only [Option.map_some', Option.some.injEq, Prod.mk.injEq] at hmap
    obtain ⟨he, hrel⟩ := hmap
    subst hrel
    obtain ⟨hne, hplat, _⟩ := indexEntry_sound cp r rel' hie
    refine ⟨hne, ?_⟩
    rw [hplat]
    exact buildPlatforms_sound cp (r.assets.getD [])

/-- C8: in every cache state reachable by any sequence of refreshes, an
asset appears in an environment's platform table only under the
platform key its filename resolves to (so no resolution-failing asset
appears anywhere), and every environment present has a non-empty
platform table — an environment whose retained release had no
resolvable asset is absent. -/
theorem C8_platform_filtering (cp : String → Option String)
    (steps : List ((Nat → Attempt) × Nat)) :
    ∀ env rel,
      (env, rel) ∈ (runRefreshes cp steps).latestReleaseByEnvironment →
      rel.platforms ≠ [] ∧ ∀ ka ∈ rel.platforms, cp ka.2.name = some ka.1 := by
  have step : ∀ (st : CacheSt) (att : Nat → Attempt) (now : Nat),
      (∀ env rel, (env, rel) ∈ st.latestReleaseByEnvironment →
        rel.platforms ≠ [] ∧ ∀ ka ∈ rel.platforms, cp ka.2.name = some ka.1) →
      ∀ env rel,
        (env, rel) ∈ (refreshCache cp att now st).1.latestReleaseByEnvironment →
        rel.platforms ≠ [] ∧ ∀ ka ∈ rel.platforms, cp ka.2.name = some ka.1 := by
    intro st att now hst env rel hmem
    unfold refreshCache at hmem
    cases hr : runRetry att 0 3 with
    | error e =>
      rw [hr] at hmem
      exact hst env rel hmem
    | ok b =>
      rw [hr] at hmem
      cases b with
      | invalid => exact hst env rel hmem
      | nonArray => exact hst env rel hmem
      | arr data =>
        by_cases hd : data.isEmpty
        · simp only [refreshApply, hd, if_pos rfl] at hmem
          exact hst env rel hmem
        · simp only [refreshApply, hd] at hmem
          rw [if_neg (by simp [hd])] at hmem
          cases hidx : indexReleases cp data with
          | none =>
            rw [hidx] at hmem
            exact hst env rel hmem
          | some idx =>
            rw [hidx] at hmem
            exact indexReleases_platform_entries cp data idx hidx env rel hmem
  have main : ∀ (l : List ((Nat → Attempt) × Nat)) (st : CacheSt),
      (∀ env rel, (env, rel) ∈ st.latestReleaseByEnvironment →
        rel.platforms ≠ [] ∧ ∀ ka ∈ rel.platforms, cp ka.2.name = some ka.1) →
      ∀ env rel,
        (env, rel) ∈ (l.foldl (fun st s =>
          (refreshCache cp s.1 s.2 st).1) st).latestReleaseByEnvironment →
        rel.platforms ≠ [] ∧ ∀ ka ∈ rel.platforms, cp ka.2.name = some ka.1 := by
    intro l
    induction l with
    | nil => intro st h; exact h
    | cons s rest ih =>
      intro st h
      exact ih _ (step st s.1 s.2 h)
  exact main steps initialCache (by intro env rel h; exact absurd h (by simp [initialCache]))

/-- Upstream serving `[relProd]` on the first attempt. -/
def attProd : Nat → Attempt := fun _ => .resp 200 (.arr [relProd])

/-- C8 witness: after one successful refresh of `[relProd]`, the
production entry has a non-empty table whose `exe` asset's filename
resolves to `exe`. -/
theorem C8_platform_filtering_witness :
    prodRelease.platforms ≠ []
    ∧ cpTest (mkAsset assetExe).name = some "exe" := by
  have h := C8_platform_filtering cpTest [(attProd, 0)] "production"
    prodRelease (by
      show ("production", prodRelease) ∈
        (runRefreshes cpTest [(attProd, 0)]).latestReleaseByEnvironment
      rw [show (runRefreshes cpTest [(attProd, 0)]).latestReleaseByEnvironment =
        [("production", prodRelease)] from rfl]
      exact List.mem_singleton.mpr rfl)
  exact ⟨h.1, h.2 ("exe", mkAsset assetExe) (by
    rw [show prodRelease.platforms = [("exe", mkAsset assetExe)] from rfl]
    exact List.mem_singleton.mpr rfl)⟩

end Hazel
